import Mathlib

/-!
Shallow embedding of `source/store.go` of the kube-rdns repository.

The file models, faithfully to the Go source:
* the Go error values produced and propagated by the file (`GoError`),
* `SingletonClientGenerator` and its method `KubeClient()` (with the state of
  the embedded `sync.Once` made explicit),
* `ByNames` and `BuildWithConfig` over an abstract `ClientGenerator`,
* `NewKubeClient`'s credential-path resolution and its transport
  `PathProcessor` callback.

External collaborators (client-go, the adapter constructors, the filesystem)
are abstracted as parameters, since their code is not part of this repository's
source file.
-/

set_option autoImplicit false

namespace KubeRdns

/-- Go `error` values as they occur in store.go: `errNew msg` models
`errors.New(msg)`; `ext e` models an opaque error produced by an external
collaborator (client-go, an adapter constructor). -/
inductive GoError (E : Type) where
  | errNew (msg : String)
  | ext (e : E)
deriving DecidableEq

/-- `type Config struct { Namespace string }` of store.go. -/
structure Config where
  Namespace : String
deriving DecidableEq

/-- `SingletonClientGenerator` of store.go.  The embedded `sync.Once` is
modeled by the flag `onceDone`; the memoized `client` field is `Option C`
(`none` models a Go `nil` interface value). -/
structure SingletonClientGenerator (C E : Type) where
  KubeConfig : String
  KubeMaster : String
  client : Option C
  onceDone : Bool
deriving DecidableEq

/-- One call of `(p *SingletonClientGenerator) KubeClient()` (store.go:36-42),
with the receiver's mutable state passed explicitly.  `newKube` stands for the
factory `NewKubeClient`.  The returned pair mirrors Go's
`(kubernetes.Interface, error)`: the local variable `err` is only assigned
inside `Once.Do`, so when the body does not run the returned error is `none`
whatever happened on the first call; on a failed first call the factory
returns a nil client, so `p.client` is set to `none`. -/
def KubeClientCall {C E : Type} (newKube : String → String → Except (GoError E) C)
    (p : SingletonClientGenerator C E) :
    (Option C × Option (GoError E)) × SingletonClientGenerator C E :=
  if p.onceDone then
    ((p.client, none), p)
  else
    match newKube p.KubeConfig p.KubeMaster with
    | .ok c => ((some c, none), { p with client := some c, onceDone := true })
    | .error e => ((none, some e), { p with client := none, onceDone := true })

/-- A sequence of `n` calls to `KubeClient()` on one receiver.  `sync.Once.Do`
is mutually exclusive and later callers wait for the first body to complete,
so every concurrent schedule of calls is observationally some sequential order
of them; this function is that sequential trace.  The third component counts
how many of the calls actually ran the factory body inside `Once.Do`. -/
def runKubeClientCalls {C E : Type} (newKube : String → String → Except (GoError E) C) :
    Nat → SingletonClientGenerator C E →
      List (Option C × Option (GoError E)) × SingletonClientGenerator C E × Nat
  | 0, p => ([], p, 0)
  | n + 1, p =>
    let step := KubeClientCall newKube p
    let rest := runKubeClientCalls newKube n step.2
    (step.1 :: rest.1, rest.2.1, (if p.onceDone then 0 else 1) + rest.2.2)

theorem kubeClientCall_done {C E : Type} (newKube : String → String → Except (GoError E) C)
    (p : SingletonClientGenerator C E) (h : p.onceDone = true) :
    KubeClientCall newKube p = ((p.client, none), p) := by
  simp [KubeClientCall, h]

theorem kubeClientCall_ok_state {C E : Type}
    (newKube : String → String → Except (GoError E) C)
    (p p' : SingletonClientGenerator C E) (copt : Option C)
    (h : KubeClientCall newKube p = ((copt, none), p')) :
    p'.onceDone = true ∧ p'.client = copt := by
  by_cases hd : p.onceDone
  · rw [kubeClientCall_done newKube p hd] at h
    obtain ⟨h1, h2⟩ := Prod.mk.injEq .. ▸ h
    obtain ⟨h3, _⟩ := Prod.mk.injEq .. ▸ h1
    exact ⟨h2 ▸ hd, h2 ▸ h3⟩
  · simp only [KubeClientCall, hd, if_false, Bool.false_eq_true] at h
    cases hnk : newKube p.KubeConfig p.KubeMaster with
    | ok c =>
      rw [hnk] at h
      obtain ⟨h1, h2⟩ := Prod.mk.injEq .. ▸ h
      obtain ⟨h3, _⟩ := Prod.mk.injEq .. ▸ h1
      subst h2
      exact ⟨rfl, h3⟩
    | error e =>
      rw [hnk] at h
      obtain ⟨h1, _⟩ := Prod.mk.injEq .. ▸ h
      obtain ⟨_, h4⟩ := Prod.mk.injEq .. ▸ h1
      cases h4

theorem runKubeClientCalls_done {C E : Type}
    (newKube : String → String → Except (GoError E) C) (n : Nat)
    (p : SingletonClientGenerator C E) (h : p.onceDone = true) :
    runKubeClientCalls newKube n p = (List.replicate n (p.client, none), p, 0) := by
  induction n with
  | zero => rfl
  | succ n ih =>
    simp only [runKubeClientCalls, kubeClientCall_done newKube p h, ih, h, if_true,
      List.replicate_succ]

/-- The two adapter constructors `NewIngressNginxSource` and
`NewIngressGCESource` called by `BuildWithConfig` (store.go:59-75).  Their
bodies live in other files of the repository, so they are kept abstract: each
takes the shared client obtained from the generator (a Go interface value,
hence possibly nil) and a namespace, and returns `(Source, error)`. -/
structure SourceConstructors (C S E : Type) where
  newIngressNginxSource : Option C → String → Except (GoError E) S
  newIngressGCESource : Option C → String → Except (GoError E) S

/-- `BuildWithConfig` (store.go:59-75) over an abstract `ClientGenerator`
whose `KubeClient()` method is the state-passing function `g`.  The Go
`switch` is the if-chain on the name; in a recognized case the generator is
called first and its error, if any, is returned verbatim; an unrecognized
name yields `errors.New("source not found")` without calling the generator. -/
def BuildWithConfig {C S E σ : Type} (ctors : SourceConstructors C S E)
    (g : σ → (Option C × Option (GoError E)) × σ)
    (source : String) (cfg : Config) (st : σ) :
    Except (GoError E) S × σ :=
  if source = "ingress-nginx" then
    match g st with
    | ((_client, some e), st') => (.error e, st')
    | ((client, none), st') => (ctors.newIngressNginxSource client cfg.Namespace, st')
  else if source = "ingress-gce" then
    match g st with
    | ((_client, some e), st') => (.error e, st')
    | ((client, none), st') => (ctors.newIngressGCESource client cfg.Namespace, st')
  else
    (.error (.errNew "source not found"), st)

/-- `ByNames` (store.go:45-56): one `BuildWithConfig` per name, in input
order, failing fast.  On success Go returns the non-nil slice it accumulated;
on failure it returns `nil` and the error — `Except` carries exactly one of
the two, so the error case exposes no partial list. -/
def ByNames {C S E σ : Type} (ctors : SourceConstructors C S E)
    (g : σ → (Option C × Option (GoError E)) × σ)
    (names : List String) (cfg : Config) (st : σ) :
    Except (GoError E) (List S) × σ :=
  match names with
  | [] => (.ok [], st)
  | name :: rest =>
    match BuildWithConfig ctors g name cfg st with
    | (.error e, st') => (.error e, st')
    | (.ok s, st') =>
      match ByNames ctors g rest cfg st' with
      | (.error e, st'') => (.error e, st'')
      | (.ok ss, st'') => (.ok (s :: ss), st'')

/-- The `ClientGenerator` implemented by `SingletonClientGenerator` (its
`KubeClient()` method), as a state-passing function. -/
def singletonGen {C E : Type} (newKube : String → String → Except (GoError E) C) :
    SingletonClientGenerator C E →
      (Option C × Option (GoError E)) × SingletonClientGenerator C E :=
  KubeClientCall newKube

/-- `singletonGen` instrumented with a counter of how many times the
`KubeClient()` method has been invoked. -/
def countedSingletonGen {C E : Type} (newKube : String → String → Except (GoError E) C) :
    SingletonClientGenerator C E × Nat →
      (Option C × Option (GoError E)) × (SingletonClientGenerator C E × Nat) :=
  fun pq =>
    ((KubeClientCall newKube pq.1).1, ((KubeClientCall newKube pq.1).2, pq.2 + 1))

/-- The per-name body of `BuildWithConfig` once the generator's answer
`(client, nil)` is fixed: lookup of the name and application of the matching
constructor to the shared client and the configured namespace. -/
def buildForClient {C S E : Type} (ctors : SourceConstructors C S E)
    (client : Option C) (source : String) (ns : String) : Except (GoError E) S :=
  if source = "ingress-nginx" then ctors.newIngressNginxSource client ns
  else if source = "ingress-gce" then ctors.newIngressGCESource client ns
  else .error (.errNew "source not found")

/-- `buildForClient` over a whole name list, failing fast: what `ByNames`
computes once the singleton generator is in its memoized state. -/
def buildAllForClient {C S E : Type} (ctors : SourceConstructors C S E)
    (client : Option C) (ns : String) : List String → Except (GoError E) (List S)
  | [] => .ok []
  | name :: rest =>
    match buildForClient ctors client name ns with
    | .error e => .error e
    | .ok s =>
      match buildAllForClient ctors client ns rest with
      | .error e => .error e
      | .ok ss => .ok (s :: ss)

/-- Whether `needle` occurs as a contiguous substring of `hay` (used to make
"the error message references the offending name" a checkable statement). -/
def strContains (hay needle : String) : Bool :=
  (List.range (hay.toList.length + 1)).any
    (fun i => ((hay.toList.drop i).take needle.toList.length) == needle.toList)

/-- Modelled from the spec: a concrete adapter type standing in for the
variants built by the registry constructors (code outside src/), each binding
the shared client and the namespace it was constructed with. -/
inductive DemoSource where
  | nginx (client : Option Nat) (ns : String)
  | gce (client : Option Nat) (ns : String)
deriving DecidableEq

/-- Modelled from the spec: concrete stand-ins for the two registry
constructors, binding client and namespace into the adapter value. -/
def demoCtors : SourceConstructors Nat DemoSource String :=
  ⟨fun c ns => .ok (.nginx c ns), fun c ns => .ok (.gce c ns)⟩

/-- A factory (`NewKubeClient` stand-in) that always succeeds with client 7. -/
def demoOkFactory : String → String → Except (GoError String) Nat :=
  fun _ _ => .ok 7

/-- A factory (`NewKubeClient` stand-in) that always fails. -/
def demoFailFactory : String → String → Except (GoError String) Nat :=
  fun _ _ => .error (.ext "boom")

/-- A freshly constructed `SingletonClientGenerator` (Go zero values for the
`client` and `sync.Once` fields). -/
def demoFresh : SingletonClientGenerator Nat String :=
  ⟨"", "", none, false⟩

/-- The shared configuration used by the concrete test instances. -/
def demoCfg : Config :=
  ⟨"prod"⟩

theorem buildWithConfig_ready {C S E : Type} (ctors : SourceConstructors C S E)
    (nk : String → String → Except (GoError E) C) (name : String) (cfg : Config)
    (p : SingletonClientGenerator C E) (h : p.onceDone = true) :
    BuildWithConfig ctors (singletonGen nk) name cfg p
      = (buildForClient ctors p.client name cfg.Namespace, p) := by
  by_cases h1 : name = "ingress-nginx"
  · simp [BuildWithConfig, buildForClient, h1, singletonGen, kubeClientCall_done nk p h]
  · by_cases h2 : name = "ingress-gce"
    · simp [BuildWithConfig, buildForClient, h1, h2, singletonGen,
        kubeClientCall_done nk p h]
    · simp [BuildWithConfig, buildForClient, h1, h2]

theorem buildWithConfig_ok_state {C S E : Type} (ctors : SourceConstructors C S E)
    (nk : String → String → Except (GoError E) C) (name : String) (cfg : Config)
    (p p' : SingletonClientGenerator C E) (s : S)
    (h : BuildWithConfig ctors (singletonGen nk) name cfg p = (.ok s, p')) :
    p'.onceDone = true ∧ buildForClient ctors p'.client name cfg.Namespace = .ok s := by
  by_cases h1 : name = "ingress-nginx"
  · rw [BuildWithConfig, if_pos h1] at h
    rcases hg : singletonGen nk p with ⟨⟨copt, eopt⟩, st1⟩
    rw [hg] at h
    cases eopt with
    | some e =>
      obtain ⟨hres, _⟩ := Prod.mk.injEq .. ▸ h
      exact Except.noConfusion hres
    | none =>
      obtain ⟨hres, hst⟩ := Prod.mk.injEq .. ▸ h
      obtain ⟨hd, hc⟩ := kubeClientCall_ok_state nk p st1 copt hg
      rw [← hst]
      refine ⟨hd, ?_⟩
      rw [buildForClient, if_pos h1, hc]
      exact hres
  · by_cases h2 : name = "ingress-gce"
    · rw [BuildWithConfig, if_neg h1, if_pos h2] at h
      rcases hg : singletonGen nk p with ⟨⟨copt, eopt⟩, st1⟩
      rw [hg] at h
      cases eopt with
      | some e =>
        obtain ⟨hres, _⟩ := Prod.mk.injEq .. ▸ h
        exact Except.noConfusion hres
      | none =>
        obtain ⟨hres, hst⟩ := Prod.mk.injEq .. ▸ h
        obtain ⟨hd, hc⟩ := kubeClientCall_ok_state nk p st1 copt hg
        rw [← hst]
        refine ⟨hd, ?_⟩
        rw [buildForClient, if_neg h1, if_pos h2, hc]
        exact hres
    · rw [BuildWithConfig, if_neg h1, if_neg h2] at h
      obtain ⟨hres, _⟩ := Prod.mk.injEq .. ▸ h
      exact Except.noConfusion hres

theorem byNames_ready {C S E : Type} (ctors : SourceConstructors C S E)
    (nk : String → String → Except (GoError E) C) (L : List String) (cfg : Config)
    (p : SingletonClientGenerator C E) (h : p.onceDone = true) :
    ByNames ctors (singletonGen nk) L cfg p
      = (buildAllForClient ctors p.client cfg.Namespace L, p) := by
  induction L with
  | nil => rfl
  | cons name rest ih =>
    simp only [ByNames, buildAllForClient, buildWithConfig_ready ctors nk name cfg p h, ih]
    cases hb : buildForClient ctors p.client name cfg.Namespace with
    | error e => rfl
    | ok s =>
      simp only [ih]
      cases hall : buildAllForClient ctors p.client cfg.Namespace rest with
      | error e => rfl
      | ok ss => rfl

theorem buildAllForClient_ok {C S E : Type} (ctors : SourceConstructors C S E)
    (cl : Option C) (ns : String) :
    ∀ (L : List String) (out : List S),
      buildAllForClient ctors cl ns L = .ok out →
      out.length = L.length ∧
        ∀ i name, L.get? i = some name →
          ∃ s, out.get? i = some s ∧ buildForClient ctors cl name ns = .ok s := by
  intro L
  induction L with
  | nil =>
    intro out h
    injection h with h'
    subst h'
    exact ⟨rfl, fun i name hi => Option.noConfusion hi⟩
  | cons name rest ih =>
    intro out h
    rw [buildAllForClient] at h
    cases hb : buildForClient ctors cl name ns with
    | error e =>
      rw [hb] at h
      exact Except.noConfusion h
    | ok s =>
      rw [hb] at h
      cases hall : buildAllForClient ctors cl ns rest with
      | error e =>
        rw [hall] at h
        exact Except.noConfusion h
      | ok ss =>
        rw [hall] at h
        injection h with h'
        subst h'
        obtain ⟨hlen, hidx⟩ := ih ss hall
        refine ⟨by simp [hlen], ?_⟩
        intro i nm hi
        cases i with
        | zero =>
          injection hi with hi'
          subst hi'
          exact ⟨s, rfl, hb⟩
        | succ j => exact hidx j nm hi

theorem buildWithConfig_counted_ok {C S E : Type} (ctors : SourceConstructors C S E)
    (nk : String → String → Except (GoError E) C) (name : String) (cfg : Config)
    (p p₁ : SingletonClientGenerator C E) (k k₁ : Nat) (s : S)
    (h : BuildWithConfig ctors (countedSingletonGen nk) name cfg (p, k)
      = (.ok s, (p₁, k₁))) :
    k₁ = k + 1 := by
  rcases hg : KubeClientCall nk p with ⟨⟨copt, eopt⟩, p'⟩
  have hcg : countedSingletonGen nk (p, k) = ((copt, eopt), (p', k + 1)) := by
    simp [countedSingletonGen, hg]
  by_cases h1 : name = "ingress-nginx"
  · rw [BuildWithConfig, if_pos h1, hcg] at h
    cases eopt with
    | some e =>
      obtain ⟨hres, _⟩ := Prod.mk.injEq .. ▸ h
      exact Except.noConfusion hres
    | none =>
      obtain ⟨_, hst⟩ := Prod.mk.injEq .. ▸ h
      obtain ⟨_, hk⟩ := Prod.mk.injEq .. ▸ hst
      exact hk.symm
  · by_cases h2 : name = "ingress-gce"
    · rw [BuildWithConfig, if_neg h1, if_pos h2, hcg] at h
      cases eopt with
      | some e =>
        obtain ⟨hres, _⟩ := Prod.mk.injEq .. ▸ h
        exact Except.noConfusion hres
      | none =>
        obtain ⟨_, hst⟩ := Prod.mk.injEq .. ▸ h
        obtain ⟨_, hk⟩ := Prod.mk.injEq .. ▸ hst
        exact hk.symm
    · rw [BuildWithConfig, if_neg h1, if_neg h2] at h
      obtain ⟨hres, _⟩ := Prod.mk.injEq .. ▸ h
      exact Except.noConfusion hres

theorem byNames_counted_count {C S E : Type} (ctors : SourceConstructors C S E)
    (nk : String → String → Except (GoError E) C) (cfg : Config) :
    ∀ (L : List String) (p : SingletonClientGenerator C E) (k : Nat)
      (out : List S) (q : SingletonClientGenerator C E × Nat),
      ByNames ctors (countedSingletonGen nk) L cfg (p, k) = (.ok out, q) →
      q.2 = k + L.length := by
  intro L
  induction L with
  | nil =>
    intro p k out q h
    obtain ⟨_, hq⟩ := Prod.mk.injEq .. ▸ h
    simp [← hq]
  | cons name rest ih =>
    intro p k out q h
    rw [ByNames] at h
    split at h
    · rename_i e st' heq
      have hres : Except.error e = Except.ok out := congrArg Prod.fst h
      exact Except.noConfusion hres
    · rename_i s st' heq
      obtain ⟨p₁, k₁⟩ := st'
      have hk₁ : k₁ = k + 1 := buildWithConfig_counted_ok ctors nk name cfg p p₁ k k₁ s heq
      split at h
      · rename_i e st'' heq2
        have hres : Except.error e = Except.ok out := congrArg Prod.fst h
        exact Except.noConfusion hres
      · rename_i ss st'' heq2
        have hq : st'' = q := congrArg Prod.snd h
        have := ih p₁ k₁ ss st'' heq2
        rw [← hq]
        simp only [List.length_cons]
        omega

/-- The external collaborators used by `NewKubeClient` (store.go:80-108):
`clientcmd.RecommendedHomeFile`, `os.Stat` (as the predicate "stat succeeded"),
`clientcmd.BuildConfigFromFlags` and `kubernetes.NewForConfig`.  `ρ` is the
rest-config type returned by the config builder. -/
structure KubeEnv (ρ C E : Type) where
  recommendedHomeFile : String
  statOk : String → Bool
  buildConfigFromFlags : String → String → Except (GoError E) ρ
  newForConfig : ρ → Except (GoError E) C

/-- The credential-path resolution at the top of `NewKubeClient`
(store.go:81-85): an empty `kubeConfig` is replaced by the recommended home
file only when `os.Stat` succeeds on it; a non-empty `kubeConfig` is left
untouched. -/
def resolveKubeConfigPath {ρ C E : Type} (env : KubeEnv ρ C E)
    (kubeConfig : String) : String :=
  if kubeConfig = "" then
    if env.statOk env.recommendedHomeFile then env.recommendedHomeFile else kubeConfig
  else kubeConfig

/-- `NewKubeClient` (store.go:80-108).  The `config.WrapTransport` assignment
only installs the observation-only instrumentation (its path callback is
modeled by `pathProcessor` below) and the final `log.Infof` is a log side
effect; neither changes the returned value, so neither appears here. -/
def NewKubeClient {ρ C E : Type} (env : KubeEnv ρ C E)
    (kubeConfig kubeMaster : String) : Except (GoError E) C :=
  match env.buildConfigFromFlags kubeMaster (resolveKubeConfigPath env kubeConfig) with
  | .error e => .error e
  | .ok config =>
    match env.newForConfig config with
    | .error e => .error e
    | .ok client => .ok client

/-- Go `strings.Split(s, "/")` on the character list of `s`: the (always
non-empty) list of the substrings between the slashes. -/
def splitOnSlash : List Char → List (List Char)
  | [] => [[]]
  | c :: cs =>
    match splitOnSlash cs with
    | [] => [[]]
    | r :: rs => if c = '/' then [] :: r :: rs else (c :: r) :: rs

/-- The `PathProcessor` callback installed by `NewKubeClient`
(store.go:94-97): `parts := strings.Split(path, "/"); return
parts[len(parts)-1]`.  The Go indexing is modeled with `List.getD`;
`splitOnSlash_ne_nil` shows the default is never taken. -/
def pathProcessor (path : String) : String :=
  String.mk ((splitOnSlash path.toList).getD ((splitOnSlash path.toList).length - 1) [])

/-- Follows the spec's words for the path label: the substring after the final
slash, the whole string when it has no slash. -/
def lastSegmentSpec : List Char → List Char
  | [] => []
  | c :: cs => if c = '/' ∨ '/' ∈ cs then lastSegmentSpec cs else c :: cs

theorem splitOnSlash_ne_nil (l : List Char) : splitOnSlash l ≠ [] := by
  cases l with
  | nil => simp [splitOnSlash]
  | cons c cs =>
    simp only [splitOnSlash]
    split
    · simp
    · split <;> simp

theorem splitOnSlash_of_not_mem (l : List Char) (h : '/' ∉ l) :
    splitOnSlash l = [l] := by
  induction l with
  | nil => rfl
  | cons c cs ih =>
    have hc : ¬c = '/' := by
      intro hc
      exact h (hc ▸ List.mem_cons_self c cs)
    have hcs : '/' ∉ cs := fun hm => h (List.mem_cons_of_mem c hm)
    rw [splitOnSlash, ih hcs]
    simp [hc]

theorem two_le_splitOnSlash_length (l : List Char) (h : '/' ∈ l) :
    2 ≤ (splitOnSlash l).length := by
  induction l with
  | nil => cases h
  | cons c cs ih =>
    rcases hsp : splitOnSlash cs with _ | ⟨r, rs⟩
    · exact absurd hsp (splitOnSlash_ne_nil cs)
    · rw [splitOnSlash, hsp]
      dsimp only
      by_cases hc : c = '/'
      · simp [hc]
      · rw [if_neg hc]
        rcases List.mem_cons.mp h with h1 | h2
        · exact absurd h1.symm hc
        · have h3 := ih h2
          rw [hsp] at h3
          simpa using h3

theorem not_mem_of_splitOnSlash_length_one (l : List Char)
    (h : (splitOnSlash l).length = 1) : '/' ∉ l := by
  intro hm
  have := two_le_splitOnSlash_length l hm
  omega

theorem lastSegmentSpec_of_not_mem (l : List Char) (h : '/' ∉ l) :
    lastSegmentSpec l = l := by
  cases l with
  | nil => rfl
  | cons c cs =>
    have hcond : ¬(c = '/' ∨ '/' ∈ cs) := by
      rintro (h1 | h2)
      · exact h (h1 ▸ List.mem_cons_self c cs)
      · exact h (List.mem_cons_of_mem c h2)
    rw [lastSegmentSpec, if_neg hcond]

theorem not_mem_lastSegmentSpec (l : List Char) : '/' ∉ lastSegmentSpec l := by
  induction l with
  | nil => simp [lastSegmentSpec]
  | cons c cs ih =>
    rw [lastSegmentSpec]
    split
    · exact ih
    · rename_i hcond
      intro hm
      rcases List.mem_cons.mp hm with h1 | h2
      · exact hcond (Or.inl h1.symm)
      · exact hcond (Or.inr h2)

theorem splitOnSlash_getD (l : List Char) :
    (splitOnSlash l).getD ((splitOnSlash l).length - 1) [] = lastSegmentSpec l := by
  induction l with
  | nil => rfl
  | cons c cs ih =>
    rcases hsp : splitOnSlash cs with _ | ⟨r, rs⟩
    · exact absurd hsp (splitOnSlash_ne_nil cs)
    · rw [hsp] at ih
      rw [splitOnSlash, hsp]
      dsimp only
      by_cases hc : c = '/'
      · rw [if_pos hc, lastSegmentSpec, if_pos (Or.inl hc)]
        simpa using ih
      · rw [if_neg hc]
        rcases rs with _ | ⟨r2, rs2⟩
        · have hone : (splitOnSlash cs).length = 1 := by rw [hsp]; rfl
          have hns : '/' ∉ cs := not_mem_of_splitOnSlash_length_one cs hone
          have hr : r = cs := by
            have := splitOnSlash_of_not_mem cs hns
            rw [hsp] at this
            exact (List.cons.injEq .. ▸ this).1
          have hcond : ¬(c = '/' ∨ '/' ∈ cs) := by
            rintro (h1 | h2)
            · exact hc h1
            · exact hns h2
          rw [lastSegmentSpec, if_neg hcond, hr]
          rfl
        · have hmem : '/' ∈ cs := by
            by_contra hns
            have := splitOnSlash_of_not_mem cs hns
            rw [hsp] at this
            exact absurd (congrArg List.length this) (by simp)
          rw [lastSegmentSpec, if_pos (Or.inr hmem), ← ih]
          simp [List.length_cons]

/-- C1: the claim says a failed first `KubeClient()` returns the same error to
every concurrent and later caller.  On the code this fails: `err` is a local
variable of `KubeClient` assigned only inside `Once.Do`, so any call whose
`Once.Do` body does not run returns a nil error.  At the failing input — a
fresh provider whose factory fails with `ext "boom"`, called twice — the
first call returns `(none, some (ext "boom"))` but the second returns
`(none, none)`: a nil client together with a nil error, with the factory
having run exactly once. -/
theorem kubeClient_error_lost_after_first_call :
    runKubeClientCalls demoFailFactory 2 demoFresh
      = ([(none, some (.ext "boom")), (none, none)],
          ⟨"", "", none, true⟩, 1) := by
  rfl

/-- C2 counterexample: `BuildWithConfig` on the unknown name
"not-a-real-source" fails with the constant error
`errors.New("source not found")`: its message does not contain the offending
name, and a different unknown name produces the very same error value, so the
error does not carry or reference the name, contrary to the claim. -/
theorem buildWithConfig_unknown_error_lacks_name :
    BuildWithConfig demoCtors (countedSingletonGen demoOkFactory)
        "not-a-real-source" demoCfg (demoFresh, 0)
      = (.error (.errNew "source not found"), (demoFresh, 0)) ∧
      strContains "source not found" "not-a-real-source" = false ∧
      BuildWithConfig demoCtors (countedSingletonGen demoOkFactory)
        "another-unknown" demoCfg (demoFresh, 0)
      = (.error (.errNew "source not found"), (demoFresh, 0)) := by
  exact ⟨rfl, by decide, rfl⟩

/-- C2 amended: for every name outside the vocabulary
`{"ingress-nginx", "ingress-gce"}` and any client generator,
`BuildWithConfig` fails with the fixed error `errors.New("source not found")`
— one constant value that does not reference the offending name — leaving the
generator untouched, and `ByNames` with that name first fails the same way. -/
theorem buildWithConfig_unknown_source_fixed_error {C S E σ : Type}
    (ctors : SourceConstructors C S E)
    (g : σ → (Option C × Option (GoError E)) × σ) (cfg : Config) (st : σ)
    (name : String) (h1 : name ≠ "ingress-nginx") (h2 : name ≠ "ingress-gce") :
    BuildWithConfig ctors g name cfg st
        = (.error (.errNew "source not found"), st) ∧
      ∀ rest, ByNames ctors g (name :: rest) cfg st
        = (.error (.errNew "source not found"), st) := by
  have hb : BuildWithConfig ctors g name cfg st
      = (.error (.errNew "source not found"), st) := by
    rw [BuildWithConfig, if_neg h1, if_neg h2]
  refine ⟨hb, fun rest => ?_⟩
  rw [ByNames, hb]

/-- Witness for the amended C2 at the concrete name "bogus". -/
theorem buildWithConfig_unknown_source_fixed_error_witness :
    BuildWithConfig demoCtors (singletonGen demoOkFactory) "bogus" demoCfg demoFresh
        = (.error (.errNew "source not found"), demoFresh) ∧
      ∀ rest, ByNames demoCtors (singletonGen demoOkFactory) ("bogus" :: rest)
          demoCfg demoFresh
        = (.error (.errNew "source not found"), demoFresh) :=
  buildWithConfig_unknown_source_fixed_error demoCtors (singletonGen demoOkFactory)
    demoCfg demoFresh "bogus" (by decide) (by decide)

/-- C3: `ByNames` is fail-fast and all-or-nothing: whenever every name of a
prefix resolves and the next name fails with error e, the whole call returns
that first error and no list (`Except.error` carries no partial list), and the
result does not depend on the names after the failing position (the
universally quantified tail `l₂` does not occur in the conclusion). -/
theorem byNames_fail_fast {C S E σ : Type} (ctors : SourceConstructors C S E)
    (g : σ → (Option C × Option (GoError E)) × σ) (cfg : Config) :
    ∀ (l₁ : List String) (name : String) (l₂ : List String) (st st₁ st₂ : σ)
      (out₁ : List S) (e : GoError E),
      ByNames ctors g l₁ cfg st = (.ok out₁, st₁) →
      BuildWithConfig ctors g name cfg st₁ = (.error e, st₂) →
      ByNames ctors g (l₁ ++ name :: l₂) cfg st = (.error e, st₂) := by
  intro l₁
  induction l₁ with
  | nil =>
    intro name l₂ st st₁ st₂ out₁ e h1 h2
    have hst : st = st₁ := congrArg Prod.snd h1
    rw [List.nil_append, ByNames, hst, h2]
  | cons x xs ih =>
    intro name l₂ st st₁ st₂ out₁ e h1 h2
    rw [ByNames] at h1
    split at h1
    · rename_i e' st' heq
      have hres : Except.error e' = Except.ok out₁ := congrArg Prod.fst h1
      exact Except.noConfusion hres
    · rename_i s st' heq
      split at h1
      · rename_i e' st'' heq2
        have hres : Except.error e' = Except.ok out₁ := congrArg Prod.fst h1
        exact Except.noConfusion hres
      · rename_i ss st'' heq2
        have hst : st'' = st₁ := congrArg Prod.snd h1
        rw [List.cons_append, ByNames, heq]
        dsimp only
        rw [ih name l₂ st' st₁ st₂ ss e (hst ▸ heq2) h2]

/-- Witness for C3: the known prefix ["ingress-nginx"] succeeds, "bogus"
fails, and "ingress-gce" after it is never attempted. -/
theorem byNames_fail_fast_witness :
    ByNames demoCtors (singletonGen demoOkFactory)
        ["ingress-nginx", "bogus", "ingress-gce"] demoCfg demoFresh
      = (.error (.errNew "source not found"), ⟨"", "", some 7, true⟩) :=
  byNames_fail_fast demoCtors (singletonGen demoOkFactory) demoCfg
    ["ingress-nginx"] "bogus" ["ingress-gce"] demoFresh ⟨"", "", some 7, true⟩
    ⟨"", "", some 7, true⟩ [DemoSource.nginx (some 7) "prod"]
    (.errNew "source not found") rfl rfl

/-- C5: `ByNames` on the empty name list returns the empty list Go allocated
(`[]Source{}`, non-nil, here `Except.ok []`) with a nil error, and leaves any
generator's state — including an invocation-counting singleton generator —
untouched: `KubeClient()` is never invoked. -/
theorem byNames_empty_no_client {C S E σ : Type} (ctors : SourceConstructors C S E)
    (g : σ → (Option C × Option (GoError E)) × σ) (cfg : Config) (st : σ)
    (nk : String → String → Except (GoError E) C)
    (p : SingletonClientGenerator C E) (k : Nat) :
    ByNames ctors g [] cfg st = (.ok [], st) ∧
      ByNames ctors (countedSingletonGen nk) [] cfg (p, k) = (.ok [], (p, k)) :=
  ⟨rfl, rfl⟩

/-- C4: a successful `ByNames` over the singleton generator returns exactly
one adapter per name, in input order: the output has the length of the input,
and there is one shared client value such that the element at index i is the
value produced by the registry constructor matched by name L[i], applied to
that client and `cfg.Namespace` — duplicate names included, each position
being its own constructor application. -/
theorem byNames_success_positional {C S E : Type} (ctors : SourceConstructors C S E)
    (nk : String → String → Except (GoError E) C) (cfg : Config)
    (p p' : SingletonClientGenerator C E) (L : List String) (out : List S)
    (h : ByNames ctors (singletonGen nk) L cfg p = (.ok out, p')) :
    out.length = L.length ∧
      ∃ cl : Option C, ∀ i name, L.get? i = some name →
        ∃ s, out.get? i = some s ∧
          buildForClient ctors cl name cfg.Namespace = .ok s := by
  cases L with
  | nil =>
    have hout : Except.ok ([] : List S) = Except.ok out := congrArg Prod.fst h
    injection hout with hout'
    subst hout'
    exact ⟨rfl, none, fun i name hi => absurd hi (by simp)⟩
  | cons name rest =>
    rw [ByNames] at h
    split at h
    · rename_i e st' heq
      have hres : Except.error e = Except.ok out := congrArg Prod.fst h
      exact Except.noConfusion hres
    · rename_i s st' heq
      obtain ⟨hd1, hbc⟩ := buildWithConfig_ok_state ctors nk name cfg p st' s heq
      rw [byNames_ready ctors nk rest cfg st' hd1] at h
      split at h
      · rename_i e st'' heq2
        have hres : Except.error e = Except.ok out := congrArg Prod.fst h
        exact Except.noConfusion hres
      · rename_i ss st'' heq2
        have hout : Except.ok (s :: ss) = Except.ok out := congrArg Prod.fst h
        injection hout with hout'
        subst hout'
        have hall : buildAllForClient ctors st'.client cfg.Namespace rest
            = .ok ss := congrArg Prod.fst heq2
        obtain ⟨hlen, hidx⟩ := buildAllForClient_ok ctors st'.client
          cfg.Namespace rest ss hall
        refine ⟨by simp [hlen], st'.client, ?_⟩
        intro i nm hi
        cases i with
        | zero =>
          injection hi with hi'
          subst hi'
          exact ⟨s, rfl, hbc⟩
        | succ j => exact hidx j nm hi

/-- Witness for C4: three names with a duplicate, all resolved, each output
position the constructor application for its name with the shared client. -/
theorem byNames_success_positional_witness :
    ([DemoSource.nginx (some 7) "prod", DemoSource.gce (some 7) "prod",
        DemoSource.nginx (some 7) "prod"].length
      = (["ingress-nginx", "ingress-gce", "ingress-nginx"] : List String).length) ∧
      ∃ cl : Option Nat, ∀ i name,
        (["ingress-nginx", "ingress-gce", "ingress-nginx"] : List String).get? i
            = some name →
        ∃ s, [DemoSource.nginx (some 7) "prod", DemoSource.gce (some 7) "prod",
            DemoSource.nginx (some 7) "prod"].get? i = some s ∧
          buildForClient demoCtors cl name demoCfg.Namespace = .ok s :=
  byNames_success_positional demoCtors demoOkFactory demoCfg demoFresh
    ⟨"", "", some 7, true⟩ ["ingress-nginx", "ingress-gce", "ingress-nginx"]
    [DemoSource.nginx (some 7) "prod", DemoSource.gce (some 7) "prod",
      DemoSource.nginx (some 7) "prod"] rfl

/-- C6 counterexample: with a fresh provider whose factory fails with
`ext "boom"`, `ByNames ["not-a-real-source"]` does not obtain the client
before iterating — the `KubeClient()` invocation counter stays at 0 instead
of the claimed exactly-once — and it does not fail with the client error:
the registry lookup comes first and produces `errNew "source not found"`,
which is a different error value. -/
theorem byNames_no_upfront_client_fetch :
    ByNames demoCtors (countedSingletonGen demoFailFactory)
        ["not-a-real-source"] demoCfg (demoFresh, 0)
      = (.error (.errNew "source not found"), (demoFresh, 0)) ∧
      GoError.errNew "source not found" ≠ (GoError.ext "boom" : GoError String) :=
  ⟨rfl, by decide⟩

/-- C6 amended (changed only as the counterexample forces): `ByNames` does
not fetch the client once before iterating; instead each recognized name's
`BuildWithConfig` invokes `KubeClient()` exactly once, after that name's
registry lookup, failing immediately with the factory's error when the
invocation fails on a fresh provider; an unknown name fails without any
`KubeClient()` invocation; consequently a successful `ByNames` performs
exactly one invocation per name of the list. -/
theorem buildWithConfig_client_per_name {C S E : Type}
    (ctors : SourceConstructors C S E)
    (nk : String → String → Except (GoError E) C) (cfg : Config)
    (p : SingletonClientGenerator C E) (k : Nat) (name : String) :
    (name ≠ "ingress-nginx" → name ≠ "ingress-gce" →
      BuildWithConfig ctors (countedSingletonGen nk) name cfg (p, k)
        = (.error (.errNew "source not found"), (p, k))) ∧
    (name = "ingress-nginx" ∨ name = "ingress-gce" →
      (BuildWithConfig ctors (countedSingletonGen nk) name cfg (p, k)).2.2
        = k + 1) ∧
    (name = "ingress-nginx" ∨ name = "ingress-gce" → p.onceDone = false →
      ∀ e, nk p.KubeConfig p.KubeMaster = .error e →
      (BuildWithConfig ctors (countedSingletonGen nk) name cfg (p, k)).1
        = .error e) ∧
    (∀ (L : List String) (out : List S) (q : SingletonClientGenerator C E × Nat),
      ByNames ctors (countedSingletonGen nk) L cfg (p, k) = (.ok out, q) →
      q.2 = k + L.length) := by
  rcases hg : KubeClientCall nk p with ⟨⟨copt, eopt⟩, p₁⟩
  have hcg : countedSingletonGen nk (p, k) = ((copt, eopt), (p₁, k + 1)) := by
    simp [countedSingletonGen, hg]
  refine ⟨?_, ?_, ?_, ?_⟩
  · intro h1 h2
    rw [BuildWithConfig, if_neg h1, if_neg h2]
  · rintro (rfl | rfl)
    · rw [BuildWithConfig, if_pos rfl, hcg]
      cases eopt <;> rfl
    · rw [BuildWithConfig, if_neg (by decide), if_pos rfl, hcg]
      cases eopt <;> rfl
  · intro hn hd e hf
    have hstep : KubeClientCall nk p = ((none, some e), ⟨p.KubeConfig,
        p.KubeMaster, none, true⟩) := by
      simp [KubeClientCall, hd, hf]
    rw [hstep] at hg
    have heopt : eopt = some e := by
      have := congrArg (fun x => x.1.2) hg
      simpa using this.symm
    rcases hn with rfl | rfl
    · rw [BuildWithConfig, if_pos rfl, hcg, heopt]
    · rw [BuildWithConfig, if_neg (by decide), if_pos rfl, hcg, heopt]
  · exact fun L out q h => byNames_counted_count ctors nk cfg L p k out q h

/-- Witness for the amended C6: a recognized name increments the invocation
counter; a failing factory error surfaces at a recognized name; an unknown
name leaves the counter untouched; two names make exactly two invocations. -/
theorem buildWithConfig_client_per_name_witness :
    (BuildWithConfig demoCtors (countedSingletonGen demoOkFactory)
        "ingress-nginx" demoCfg (demoFresh, 0)).2.2 = 0 + 1 ∧
      (BuildWithConfig demoCtors (countedSingletonGen demoFailFactory)
        "ingress-nginx" demoCfg (demoFresh, 0)).1 = .error (.ext "boom") ∧
      BuildWithConfig demoCtors (countedSingletonGen demoOkFactory)
        "bogus" demoCfg (demoFresh, 0)
          = (.error (.errNew "source not found"), (demoFresh, 0)) ∧
      ((⟨"", "", some 7, true⟩, 2) :
          SingletonClientGenerator Nat String × Nat).2
        = 0 + (["ingress-nginx", "ingress-gce"] : List String).length :=
  ⟨(buildWithConfig_client_per_name demoCtors demoOkFactory demoCfg demoFresh 0
      "ingress-nginx").2.1 (Or.inl rfl),
   (buildWithConfig_client_per_name demoCtors demoFailFactory demoCfg demoFresh 0
      "ingress-nginx").2.2.1 (Or.inl rfl) rfl (.ext "boom") rfl,
   (buildWithConfig_client_per_name demoCtors demoOkFactory demoCfg demoFresh 0
      "bogus").1 (by decide) (by decide),
   (buildWithConfig_client_per_name demoCtors demoOkFactory demoCfg demoFresh 0
      "ingress-nginx").2.2.2 ["ingress-nginx", "ingress-gce"]
      [DemoSource.nginx (some 7) "prod", DemoSource.gce (some 7) "prod"]
      (⟨"", "", some 7, true⟩, 2) rfl⟩

/-- C7: `NewKubeClient`'s credential resolution: a non-empty `kubeConfig` is
used verbatim — in every environment, so in particular when `os.Stat` would
fail on it — and never replaced by the default location; an empty
`kubeConfig` is replaced by the recommended home file exactly when that file
stats OK, and otherwise stays empty (no explicit credential file is passed to
the builder); and when the config builder rejects the resolved path, its
error is returned as is (no fallback), which is how an explicit nonexistent
path surfaces as a connection error. -/
theorem newKubeClient_credential_resolution {ρ C E : Type} (env : KubeEnv ρ C E)
    (kubeConfig kubeMaster : String) :
    (kubeConfig ≠ "" → resolveKubeConfigPath env kubeConfig = kubeConfig) ∧
    (env.statOk env.recommendedHomeFile = true →
      resolveKubeConfigPath env "" = env.recommendedHomeFile) ∧
    (env.statOk env.recommendedHomeFile = false →
      resolveKubeConfigPath env "" = "") ∧
    (∀ e, env.buildConfigFromFlags kubeMaster (resolveKubeConfigPath env kubeConfig)
        = .error e →
      NewKubeClient env kubeConfig kubeMaster = .error e) := by
  refine ⟨?_, ?_, ?_, ?_⟩
  · intro h
    rw [resolveKubeConfigPath, if_neg h]
  · intro h
    simp [resolveKubeConfigPath, h]
  · intro h
    simp [resolveKubeConfigPath, h]
  · intro e h
    rw [NewKubeClient, h]

/-- A concrete environment for the C7 witness: the home credential file never
exists, and the config builder always fails, echoing the path it was given. -/
def demoEnv : KubeEnv Unit Nat String :=
  ⟨"/home/user/.kube/config", fun _ => false,
    fun _ path => .error (.errNew path), fun _ => .ok 0⟩

/-- Witness for C7: the explicit path "/no/such/file" is resolved verbatim
even though it does not exist in `demoEnv`, and the builder's error about
exactly that path is what `NewKubeClient` returns. -/
theorem newKubeClient_credential_resolution_witness :
    resolveKubeConfigPath demoEnv "/no/such/file" = "/no/such/file" ∧
      resolveKubeConfigPath demoEnv "" = "" ∧
      NewKubeClient demoEnv "/no/such/file" "" = .error (.errNew "/no/such/file") :=
  ⟨(newKubeClient_credential_resolution demoEnv "/no/such/file" "").1 (by decide),
   (newKubeClient_credential_resolution demoEnv "" "").2.2.1 rfl,
   (newKubeClient_credential_resolution demoEnv "/no/such/file" "").2.2.2
     (.errNew "/no/such/file") rfl⟩

/-- C8: the transport instrumentation's path-labeling function maps every
path string to its last path segment — the substring after the final slash
(`lastSegmentSpec`, written from the spec's words), and the whole string when
it contains no slash. -/
theorem pathProcessor_last_segment (path : String) :
    pathProcessor path = String.mk (lastSegmentSpec path.toList) ∧
      ('/' ∉ path.toList → pathProcessor path = path) := by
  have h1 : pathProcessor path = String.mk (lastSegmentSpec path.toList) :=
    congrArg String.mk (splitOnSlash_getD path.toList)
  refine ⟨h1, fun h => ?_⟩
  rw [h1, lastSegmentSpec_of_not_mem path.toList h]
  rfl

/-- Witness for C8: a slash-free path is returned whole. -/
theorem pathProcessor_last_segment_witness :
    pathProcessor "metrics" = "metrics" :=
  (pathProcessor_last_segment "metrics").2 (by decide)

/-- C9: for every provider and every n ≥ 1, a trace of n `KubeClient()` calls
starting from the fresh state (`sync.Once.Do` is mutually exclusive and makes
concurrent first-time callers wait for the single body, so a sequential trace
covers every schedule) runs the factory `NewKubeClient` exactly once, and
when that single attempt succeeds with client c, every one of the n calls
returns the same memoized handle `(some c, nil)`. -/
theorem kubeClient_factory_once_memoized {C E : Type}
    (nk : String → String → Except (GoError E) C)
    (p : SingletonClientGenerator C E) (h : p.onceDone = false)
    (n : Nat) (hn : 1 ≤ n) (c : C) (hc : nk p.KubeConfig p.KubeMaster = .ok c) :
    (runKubeClientCalls nk n p).2.2 = 1 ∧
      ∀ r ∈ (runKubeClientCalls nk n p).1, r = (some c, none) := by
  obtain ⟨m, rfl⟩ : ∃ m, n = m + 1 := ⟨n - 1, by omega⟩
  have hstep : KubeClientCall nk p
      = ((some c, none), { p with client := some c, onceDone := true }) := by
    simp [KubeClientCall, h, hc]
  constructor
  · simp only [runKubeClientCalls, hstep]
    rw [runKubeClientCalls_done nk m _ rfl]
    simp [h]
  · intro r hr
    simp only [runKubeClientCalls, hstep] at hr
    rw [runKubeClientCalls_done nk m _ rfl] at hr
    rcases List.mem_cons.mp hr with h1 | h2
    · exact h1
    · exact List.eq_of_mem_replicate h2

/-- Witness for C9: three calls on a fresh provider with a factory that
succeeds with client 7. -/
theorem kubeClient_factory_once_memoized_witness :
    (runKubeClientCalls demoOkFactory 3 demoFresh).2.2 = 1 ∧
      ∀ r ∈ (runKubeClientCalls demoOkFactory 3 demoFresh).1,
        r = (some 7, none) :=
  kubeClient_factory_once_memoized demoOkFactory demoFresh rfl 3 (by decide) 7 rfl

/-- C10: the path-labeling function is total: `strings.Split` always returns
at least one part, so the index `len(parts)-1` is always in bounds; the empty
path maps to the empty string; and the result never contains a slash. -/
theorem pathProcessor_total_safe (path : String) :
    splitOnSlash path.toList ≠ [] ∧
      (splitOnSlash path.toList).length - 1 < (splitOnSlash path.toList).length ∧
      pathProcessor "" = "" ∧
      '/' ∉ (pathProcessor path).toList := by
  refine ⟨splitOnSlash_ne_nil path.toList, ?_, rfl, ?_⟩
  · have hpos := List.length_pos.mpr (splitOnSlash_ne_nil path.toList)
    omega
  · have h1 : pathProcessor path = String.mk (lastSegmentSpec path.toList) :=
      congrArg String.mk (splitOnSlash_getD path.toList)
    rw [h1]
    exact not_mem_lastSegmentSpec path.toList

end KubeRdns
